import Mathlib

/-
Verification of the Function core of the `abelian` package
(src/abelian/functions.py): functions on locally compact abelian groups,
their evaluation/table layer, the transport operators (pullback,
pushforward, shift, transversal, pointwise, copy) and the DFT wrapper.

The Group Model, Morphism Model and Congruence Solver are external
collaborators of the core (spec section 6); they are modelled here from
the spec's contracts.  Everything else is translated from
src/abelian/functions.py.
-/

open scoped BigOperators

namespace Abelian

/-- Modelled from the spec: the external Group Model (spec section 6) — a
domain descriptor with per-factor period (0 = infinite/continuous) and
per-factor discreteness flag. -/
structure LCA where
  periods : List ℤ
  discrete : List Bool
deriving DecidableEq, Repr

/-- Modelled from the spec: Group Model `length()` — the dimension. -/
def LCA.length (G : LCA) : ℕ := G.periods.length

/-- Modelled from the spec: Group Model `is_FGA()` — finitely generated
(discrete) abelian: every factor is discrete. -/
def LCA.is_FGA (G : LCA) : Bool := G.discrete.all (fun b => b)

/-- Modelled from the spec: Group Model `project_element` — reduce each
periodic coordinate modulo its period, pass non-periodic (period 0)
coordinates through unchanged (doctest in the source: a function on the
circle T with period 1 sees 1.5 reduced to 0.5). -/
def LCA.project_element (G : LCA) (x : List ℤ) : List ℤ :=
  List.zipWith (fun xi p => if 0 < p then xi % p else xi) x G.periods

/-- Modelled from the spec: Group Model `copy()` — a structural copy. -/
def LCA.copy (G : LCA) : LCA := ⟨G.periods, G.discrete⟩

/-- A nested-list table of values, as used by the table representation
variant of Function. -/
inductive Table (α : Type) where
  | leaf (a : α) : Table α
  | node (l : List (Table α)) : Table α

/-- Modelled from the spec: `call_nested_list` from abelian.utils — look a
value up in a nested-list table by an index path.  Out-of-range or
shape-mismatched paths give no value (an exception in Python). -/
def call_nested_list {α : Type} : List ℤ → Table α → Option α
  | [], Table.leaf a => some a
  | [], Table.node _ => none
  | _ :: _, Table.leaf _ => none
  | i :: rest, Table.node l => (l.get? i.toNat).bind (call_nested_list rest)

/-- Modelled from the spec: `verify_dims_list` from abelian.utils — the
table's shape must exactly match the domain's period sequence in every
factor. -/
def verify_dims_list {α : Type} : List ℤ → Table α → Bool
  | [], Table.leaf _ => true
  | d :: rest, Table.node l =>
      decide (l.length = d.toNat) && l.all (fun t => verify_dims_list rest t)
  | _, _ => false

/-- Modelled from the spec: `function_to_table` from abelian.utils —
evaluate a representation over the full cartesian product of coordinate
ranges [0, period_i) for every factor, in factor order.  The auxiliary
carries the list of already-fixed leading coordinates. -/
def function_to_table_aux {α : Type} (rep : List ℤ → α) :
    List ℤ → List ℤ → Table α
  | pref, [] => Table.leaf (rep pref)
  | pref, d :: rest =>
      Table.node ((List.range d.toNat).map
        (fun i : ℕ => function_to_table_aux rep (pref ++ [(i : ℤ)]) rest))

/-- Modelled from the spec: `function_to_table(rep, dims)`. -/
def function_to_table {α : Type} (rep : List ℤ → α) (dims : List ℤ) :
    Table α :=
  function_to_table_aux rep [] dims

/-- The error kinds raised by the core (spec section 7); Python raises
ValueError / TypeError with messages, the spec names them abstractly. -/
inductive FuncError where
  | argumentLength      -- 'Function argument does not match domain length.'
  | mustBeList          -- 'Argument to function must be list.'
  | typeErrorLen        -- len() applied to a scalar (TypeError)
  | domainMismatch      -- morphism endpoint / operand domain disagreement
  | tableType           -- table representation on a non discrete-periodic domain
  | tableDimMismatch    -- 'Table dimension mismatch.'
  | unsupportedDomain   -- 'Domain must be discrete and periodic.'
deriving DecidableEq, Repr

/-- The representation argument accepted by `Function.__init__`: either a
callable or a nested-list table. -/
inductive FuncRepr (α : Type) where
  | func (f : List ℤ → α) : FuncRepr α
  | table (t : Table α) : FuncRepr α

/-- The Function instance: a domain, the callable representation, and the
(lazily written) table field. -/
structure Function (α : Type) where
  domain : LCA
  representation : List ℤ → α
  table : Option (Table α)

/-- `Function._discrete_periodic_domain`: the domain is an FGA and every
period is strictly positive. -/
def discrete_periodic_domain (G : LCA) : Bool :=
  G.is_FGA && G.periods.all (fun p => decide (0 < p))

/-- `Function.__init__` with a callable representation: store it, table
field is None. -/
def Function.ofFunc {α : Type} (f : List ℤ → α) (domain : LCA) :
    Function α :=
  ⟨domain, f, none⟩

/-- The callable `list_caller` closure wrapped around a table
representation by `Function.__init__`. -/
def list_caller {α : Type} [Zero α] (t : Table α) : List ℤ → α :=
  fun l => (call_nested_list l t).getD 0

/-- `Function.__init__`: a callable representation is stored as is with
table None; a table representation requires a discrete periodic domain
(TypeError otherwise), a shape matching the periods (ValueError
otherwise), and is stored both as the table field and as the
`list_caller` closure. -/
def Function.init {α : Type} [Zero α] (representation : FuncRepr α)
    (domain : LCA) : Except FuncError (Function α) :=
  match representation with
  | FuncRepr.func f => Except.ok ⟨domain, f, none⟩
  | FuncRepr.table t =>
      if ¬ discrete_periodic_domain domain then Except.error FuncError.tableType
      else if ¬ verify_dims_list domain.periods t then
        Except.error FuncError.tableDimMismatch
      else Except.ok ⟨domain, list_caller t, some t⟩

/-- `Function.to_table`, with the instance state threaded explicitly: the
result and the instance after the call (the table field is the only
attribute the method writes). -/
def Function.to_table {α : Type} (f : Function α) :
    Option (Table α) × Function α :=
  if ¬ discrete_periodic_domain f.domain then (none, f)
  else
    match f.table with
    | some t => (some t, f)
    | none =>
        let t := function_to_table f.representation f.domain.periods
        (some t, ⟨f.domain, f.representation, some t⟩)

/-- The first argument of `Function.evaluate`: Python accepts a bare
numeric scalar or a list. -/
inductive Arg where
  | scalar (z : ℤ) : Arg
  | vec (l : List ℤ) : Arg
deriving DecidableEq, Repr

/-- `Function.evaluate`: a bare scalar is rejected when the dimension
exceeds 1 and wrapped as a one-element list when the dimension is 1
(for dimension 0 Python's len() of a scalar raises a TypeError); then the
length is checked against the domain dimension, the element is projected
through the domain and dispatched to the representation. -/
def Function.evaluate {α : Type} (f : Function α) (arg : Arg) :
    Except FuncError α :=
  let n := f.domain.length
  match arg with
  | Arg.scalar z =>
      if n > 1 then Except.error FuncError.mustBeList
      else if n ≠ 0 then
        -- list_arg = [z]; the length check n = 1 then passes
        Except.ok (f.representation (f.domain.project_element [z]))
      else Except.error FuncError.typeErrorLen
  | Arg.vec l =>
      if n ≠ l.length then Except.error FuncError.argumentLength
      else Except.ok (f.representation (f.domain.project_element l))

/-- `Function.sample`: a pure map of evaluate over the points. -/
def Function.sample {α : Type} (f : Function α) (pts : List Arg) :
    List (Except FuncError α) :=
  pts.map (fun p => f.evaluate p)

/-- Decidable equality of call results, used to evaluate concrete
samples. -/
instance {ε α : Type} [DecidableEq ε] [DecidableEq α] :
    DecidableEq (Except ε α) := fun x y =>
  match x, y with
  | Except.ok a, Except.ok b =>
      if h : a = b then isTrue (by rw [h])
      else isFalse (fun hh => h (by injection hh))
  | Except.error e, Except.error e' =>
      if h : e = e' then isTrue (by rw [h])
      else isFalse (fun hh => h (by injection hh))
  | Except.ok _, Except.error _ => isFalse (fun hh => Except.noConfusion hh)
  | Except.error _, Except.ok _ => isFalse (fun hh => Except.noConfusion hh)

/-- Modelled from the spec: the external Morphism Model together with the
Congruence Solver (spec section 6), flattened to the data the Function
core consumes: source and target groups, the evaluation map, the kernel
morphism's own source dimension and evaluation map, and the particular
solution `solve(A, y, target periods)` of the congruence as a map of `y`. -/
structure HomLCA where
  source : LCA
  target : LCA
  eval : List ℤ → List ℤ
  kerSourceLen : ℕ
  kerEval : List ℤ → List ℤ
  solveFn : List ℤ → List ℤ

/-- Modelled from the spec: the identity morphism on a group — the matrix
is the identity and morphism evaluation lands in the target group (its
kernel is trivial). -/
def idHom (G : LCA) : HomLCA :=
  ⟨G, G, fun x => G.project_element x, 0,
    fun _ => List.replicate G.length 0, fun y => y⟩

/-- `Function.copy`: copy the representation closure and the domain and
run them through the initializer; the closure lands in the callable
branch of `__init__`, so the new instance's table field is None. -/
def Function.copy {α : Type} (f : Function α) : Function α :=
  ⟨f.domain.copy, f.representation, none⟩

/-- `Function.pointwise`: requires identical domains, combines the two
representations pointwise with the operator. -/
def Function.pointwise {α : Type} (f other : Function α) (op : α → α → α) :
    Except FuncError (Function α) :=
  if f.domain ≠ other.domain then Except.error FuncError.domainMismatch
  else Except.ok ⟨f.domain,
    fun l => op (f.representation l) (other.representation l), none⟩

/-- `Function.pullback`: requires `morphism.target == self.domain`; the new
representation first applies the morphism and then the function; the new
domain is the morphism's source. -/
def Function.pullback {α : Type} (f : Function α) (φ : HomLCA) :
    Except FuncError (Function α) :=
  if ¬ (f.domain = φ.target) then Except.error FuncError.domainMismatch
  else Except.ok ⟨φ.source,
    fun l => f.representation (φ.eval l), none⟩

/-- The componentwise difference built by the shift closure:
`[arg - shift for (arg, shift) in zip(list_arg, list_shift)]`; zip
truncates to the shorter list. -/
def shiftArgs (list_arg list_shift : List ℤ) : List ℤ :=
  (list_arg.zip list_shift).map (fun p => p.1 - p.2)

/-- `Function.shift`: same domain, the representation is evaluated on the
componentwise differences (no validation of the shift vector). -/
def Function.shift {α : Type} (f : Function α) (list_shift : List ℤ) :
    Function α :=
  ⟨f.domain, fun l => f.representation (shiftArgs l list_shift), none⟩

/-- `Function.transversal`: the new function lives on the epimorphism's
source; at a point, apply the epimorphism, then the transversal rule
(which may return None, as the doctest rule does); if the composition
returns the point itself, evaluate the wrapped function at the
epimorphism's value, otherwise return the default. -/
def Function.transversal {α : Type} (f : Function α) (epi : HomLCA)
    (rule : List ℤ → Option (List ℤ)) (default : α) : Function α :=
  ⟨epi.source,
    fun l =>
      let applied_epi := epi.eval l
      let composed := rule applied_epi
      if composed = some l then f.representation applied_epi else default,
    none⟩

/-- Python `range(lo, hi)` as a list of integers. -/
def pyRange (lo hi : ℤ) : List ℤ := (List.range (hi - lo).toNat).map (fun i => lo + (i : ℤ))

/-- `vector = list(range(-8, 8))` in pushforward. -/
def windowVec : List ℤ := pyRange (-8) 8

/-- `itertools.product(*([v]*d))`: all length-d tuples over v. -/
def tuples (v : List ℤ) : ℕ → List (List ℤ)
  | 0 => [[]]
  | n + 1 => v.flatMap (fun x => (tuples v n).map (fun t => x :: t))

/-- Componentwise sum of two vectors (sympy Matrix addition). -/
def vecAdd (a b : List ℤ) : List ℤ := List.zipWith (fun x y => x + y) a b

/-- Modelled from the spec: `norm(e, p = 1)` from abelian.linalg.utils —
the L1 norm, the sum of the absolute values of the coordinates. -/
def normL1 (l : List ℤ) : ℤ := (l.map (fun x => |x|)).sum

/-- The default admissibility predicate of pushforward:
L1 norm of the candidate at most 10. -/
def defaultNormCondition (e : List ℤ) : Bool := decide (normL1 e ≤ 10)

/-- The accumulation loop inside pushforward's new representation:
`kernel_sum = 0`, then for every tuple of the enumeration, skip the
candidate `base_ans + kernel.evaluate(c)` unless the norm condition
holds, otherwise add the wrapped representation's value at it. -/
def pushforward_sum {α : Type} [AddCommMonoid α] (f : List ℤ → α)
    (base_ans : List ℤ) (kerEval : List ℤ → List ℤ) (d : ℕ)
    (cond : List ℤ → Bool) : α :=
  (tuples windowVec d).foldl
    (fun acc p =>
      let kernel_element := vecAdd base_ans (kerEval p)
      if cond kernel_element then acc + f kernel_element else acc)
    0

/-- `Function.pushforward`: requires `morphism.source == self.domain`;
with no norm condition supplied the default L1 ≤ 10 is used; the new
representation solves the congruence for a particular solution and sums
the wrapped representation over the enumerated fiber candidates. -/
def Function.pushforward {α : Type} [AddCommMonoid α] (f : Function α)
    (φ : HomLCA) (norm_condition : Option (List ℤ → Bool)) :
    Except FuncError (Function α) :=
  if ¬ (f.domain = φ.source) then Except.error FuncError.domainMismatch
  else
    let cond := norm_condition.getD defaultNormCondition
    Except.ok ⟨φ.target,
      fun y => pushforward_sum f.representation (φ.solveFn y) φ.kerEval
        φ.kerSourceLen cond,
      none⟩

/-- The sum described by the spec's pushforward step 2-4: enumerate the
integer combination vectors c over the window [lo, hi]^d (both bounds
included), form the candidate x0 + kernel(c), and sum the representation
over the candidates passing the admissibility predicate. -/
def windowSumSpec {α : Type} [AddCommMonoid α] (f : List ℤ → α)
    (x0 : List ℤ) (kerEval : List ℤ → List ℤ) (d : ℕ) (lo hi : ℤ)
    (cond : List ℤ → Bool) : α :=
  ((tuples (pyRange lo (hi + 1)) d).map
    (fun c =>
      let cand := vecAdd x0 (kerEval c)
      if cond cand then f cand else 0)).sum

/-! ### The spectral wrapper (`_fft_wrapper`, `dft`, `idft`) -/

/-- The outcome of a Python call: a normal return of a value, a normal
return of an exception OBJECT used as a value (the `return ValueError(...)`
in `_fft_wrapper`), or a raised exception. -/
inductive PyResult (α : Type) where
  | ok (a : α) : PyResult α
  | errValue (e : FuncError) : PyResult α
  | raised (e : FuncError) : PyResult α
deriving Repr

/-- What the entry guard of `_fft_wrapper` does on a given domain:
`if not all(p > 0 for p in dims) and domain.is_FGA(): return ValueError(...)`
— note the condition is the conjunction of `not all(p > 0)` with
`is_FGA()`, and a triggered guard RETURNS the error object instead of
raising. -/
inductive GuardStep where
  | returnedErrorValue : GuardStep
  | proceeded : GuardStep
deriving DecidableEq, Repr

/-- The entry guard of `_fft_wrapper`, translated verbatim. -/
def fft_wrapper_entry (G : LCA) : GuardStep :=
  if ¬ (G.periods.all (fun p => decide (0 < p))) ∧ G.is_FGA then
    GuardStep.returnedErrorValue
  else GuardStep.proceeded

/-- The combined phase m1 k1 / 5 + m2 k2 / 4 + m3 k3 / 3 of the numpy DFT
formula quoted in the `_fft_wrapper` docstring, at dims (5, 4, 3). -/
noncomputable def dftPhase (m1 : Fin 5) (m2 : Fin 4) (m3 : Fin 3)
    (k1 : Fin 5) (k2 : Fin 4) (k3 : Fin 3) : ℂ :=
  ((m1 : ℕ) : ℂ) * ((k1 : ℕ) : ℂ) / 5 + ((m2 : ℕ) : ℂ) * ((k2 : ℕ) : ℂ) / 4 +
    ((m3 : ℕ) : ℂ) * ((k3 : ℕ) : ℂ) / 3

/-- The n-dimensional numpy forward DFT at dims (5, 4, 3), as given by the
formula in the `_fft_wrapper` docstring (no normalization on the forward
transform):  A_k = sum_m a_m exp(-2 pi i (m1 k1 / 5 + m2 k2 / 4 + m3 k3 / 3)). -/
noncomputable def np_fftn3 (a : Fin 5 → Fin 4 → Fin 3 → ℂ) :
    Fin 5 → Fin 4 → Fin 3 → ℂ :=
  fun k1 k2 k3 =>
    ∑ m1 : Fin 5, ∑ m2 : Fin 4, ∑ m3 : Fin 3,
      a m1 m2 m3 *
        Complex.exp (-(2 * (Real.pi : ℂ) * Complex.I) * dftPhase m1 m2 m3 k1 k2 k3)

/-- The n-dimensional numpy inverse DFT at dims (5, 4, 3), as given by the
formula in the `_fft_wrapper` docstring (numpy divides by the number of
samples on the inverse transform). -/
noncomputable def np_ifftn3 (A : Fin 5 → Fin 4 → Fin 3 → ℂ) :
    Fin 5 → Fin 4 → Fin 3 → ℂ :=
  fun m1 m2 m3 =>
    (1 / 60) *
      ∑ k1 : Fin 5, ∑ k2 : Fin 4, ∑ k3 : Fin 3,
        A k1 k2 k3 *
          Complex.exp ((2 * (Real.pi : ℂ) * Complex.I) * dftPhase m1 m2 m3 k1 k2 k3)

/-- The scaling applied by `_fft_wrapper` on top of the numpy transform:
divide by prod(dims) = 60 on the forward transform, multiply by 60 on the
inverse — the opposite of the numpy convention. -/
noncomputable def scaledTransform (forward : Bool)
    (a : Fin 5 → Fin 4 → Fin 3 → ℂ) : Fin 5 → Fin 4 → Fin 3 → ℂ :=
  if forward then fun k1 k2 k3 => np_fftn3 a k1 k2 k3 / 60
  else fun m1 m2 m3 => np_ifftn3 a m1 m2 m3 * 60

/-- A single-axis phase factor exp(2 pi i j k / N); the per-axis building
block of the DFT kernels after splitting the combined exponent. -/
noncomputable def phase (N : ℕ) (j : ℤ) (k : ℕ) : ℂ :=
  Complex.exp (2 * (Real.pi : ℂ) * Complex.I * (j : ℂ) * (k : ℂ) / (N : ℂ))

/-- An integer in [0, n) as an element of Fin n. -/
def toFin (n : ℕ) (h : 0 < n) (a : ℤ) : Fin n :=
  ⟨a.toNat % n, Nat.mod_lt _ h⟩

/-- Read a (5, 4, 3)-shaped grid function at an integer index path. -/
def fun3ToList (g : Fin 5 → Fin 4 → Fin 3 → ℂ) : List ℤ → ℂ :=
  fun l =>
    match l with
    | [a, b, c] =>
        g (toFin 5 (by norm_num) a) (toFin 4 (by norm_num) b)
          (toFin 3 (by norm_num) c)
    | _ => 0

/-- A (5, 4, 3)-shaped grid function as a nested-list table. -/
def funToTable3 (g : Fin 5 → Fin 4 → Fin 3 → ℂ) : Table ℂ :=
  function_to_table (fun3ToList g) [5, 4, 3]

/-- A nested-list table as a (5, 4, 3)-shaped grid function. -/
def tableToFun3 (t : Table ℂ) : Fin 5 → Fin 4 → Fin 3 → ℂ :=
  fun k1 k2 k3 =>
    (call_nested_list [((k1 : ℕ) : ℤ), ((k2 : ℕ) : ℤ), ((k3 : ℕ) : ℤ)] t).getD 0

/-- `Function._fft_wrapper` at dims (5, 4, 3), `func_type = None`: run the
entry guard; materialize the table with `to_table`; apply the wrapped
numpy transform; scale by the product of the dims — dividing on the
forward transform and multiplying on the inverse, opposite to numpy —
and run the transformed table through the initializer. -/
noncomputable def fft_wrapper543 (forward : Bool) (f : Function ℂ) :
    PyResult (Function ℂ) :=
  if fft_wrapper_entry f.domain = GuardStep.returnedErrorValue then
    PyResult.errValue FuncError.unsupportedDomain
  else
    let t := (Function.to_table f).1.getD (Table.leaf 0)
    let computed := scaledTransform forward (tableToFun3 t)
    match Function.init (FuncRepr.table (funToTable3 computed)) f.domain with
    | Except.ok g => PyResult.ok g
    | Except.error e => PyResult.raised e

/-- Extract the returned Function of a PyResult, with a fallback. -/
def pyGetD (r : PyResult (Function ℂ)) (d : Function ℂ) : Function ℂ :=
  match r with
  | PyResult.ok g => g
  | _ => d

/-! ### Explicit receiver-state threading for the transform methods.

The method bodies of `shift`, `pullback`, `pushforward`, `transversal`,
`pointwise` and `copy` contain no write to any attribute of `self`, so
their threaded receiver post-state is the receiver itself.  `dft` and
`idft` go through `_fft_wrapper`, which calls `self.to_table()`: on a
discrete periodic domain with no cached table yet that call writes
`self.table` (the lazily materialized cache), so the receiver post-state
of the spectral transforms is the post-state of `to_table`; when the
entry guard fires, `to_table` is never reached and the receiver is
untouched. -/

/-- `shift` with the receiver's post-call state. -/
def Function.shiftM {α : Type} (f : Function α) (s : List ℤ) :
    Function α × Function α :=
  (f.shift s, f)

/-- `pullback` with the receiver's post-call state. -/
def Function.pullbackM {α : Type} (f : Function α) (φ : HomLCA) :
    Except FuncError (Function α) × Function α :=
  (f.pullback φ, f)

/-- `pushforward` with the receiver's post-call state. -/
def Function.pushforwardM {α : Type} [AddCommMonoid α] (f : Function α)
    (φ : HomLCA) (c : Option (List ℤ → Bool)) :
    Except FuncError (Function α) × Function α :=
  (f.pushforward φ c, f)

/-- `transversal` with the receiver's post-call state. -/
def Function.transversalM {α : Type} (f : Function α) (epi : HomLCA)
    (rule : List ℤ → Option (List ℤ)) (default : α) :
    Function α × Function α :=
  (f.transversal epi rule default, f)

/-- `pointwise` with the receiver's post-call state. -/
def Function.pointwiseM {α : Type} (f other : Function α) (op : α → α → α) :
    Except FuncError (Function α) × Function α :=
  (f.pointwise other op, f)

/-- `copy` with the receiver's post-call state. -/
def Function.copyM {α : Type} (f : Function α) :
    Function α × Function α :=
  (f.copy, f)

/-- `dft`/`idft` (via `_fft_wrapper` at dims (5, 4, 3)) with the
receiver's post-call state: past the entry guard, `_fft_wrapper` calls
`self.to_table()`, so the receiver after the call is `to_table`'s
post-state (which writes the table cache when the domain is discrete
periodic and nothing is cached yet). -/
noncomputable def fft_wrapper543M (forward : Bool) (f : Function ℂ) :
    PyResult (Function ℂ) × Function ℂ :=
  (fft_wrapper543 forward f,
    if fft_wrapper_entry f.domain = GuardStep.returnedErrorValue then f
    else (Function.to_table f).2)

/-! ### Concrete instances used by the claims -/

/-- The domain Z. -/
def lcaZ : LCA := ⟨[0], [true]⟩

/-- The domain Z_5. -/
def lcaZ5 : LCA := ⟨[5], [true]⟩

/-- The domain Z_5 x Z_4 x Z_3 of the DFT round-trip scenario. -/
def domain543 : LCA := ⟨[5, 4, 3], [true, true, true]⟩

/-- The constant-one function on Z, wrapped as a Function (integer
valued, so concrete sums evaluate by decide). -/
def fConstOne : Function ℤ := Function.ofFunc (fun _ => (1 : ℤ)) lcaZ

/-- Modelled from the spec: a concrete morphism configuration for the
pushforward window — phi : Z -> Z_1 given by the 1x1 matrix [1]; its
kernel is the identity morphism on Z (kernel source dimension 1), and the
congruence phi(x) = y mod 1 has the particular solution x0 = [0]. -/
def phiZtoZ1 : HomLCA :=
  ⟨lcaZ, ⟨[1], [true]⟩, fun x => x.map (fun xi => xi % 1), 1,
    fun c => c, fun _ => [0]⟩

/-- `linear(list_arg) = sum(list_arg)` with complex values. -/
def linearC : List ℤ → ℂ := fun l => ((l.sum : ℤ) : ℂ)

/-- The Function of the DFT round-trip scenario: `linear` on Z_5 x Z_4 x Z_3. -/
def fC2 : Function ℂ := Function.ofFunc linearC domain543

/-- The Function returned by `fC2.dft()`. -/
noncomputable def g1C2 : Function ℂ := pyGetD (fft_wrapper543 true fC2) fC2

/-- The Function returned by `fC2.dft().idft()`. -/
noncomputable def g2C2 : Function ℂ := pyGetD (fft_wrapper543 false g1C2) fC2

/-- `f(x) = (sum(x))^2` on Z_5, the transversal scenario's function. -/
def fOnZ5 : Function ℚ := Function.ofFunc (fun l => ((l.sum : ℤ) : ℚ) ^ 2) lcaZ5

/-- Modelled from the spec: the epimorphism Z onto Z_5 given by the 1x1
matrix [1]; its evaluation reduces into the target group Z_5. -/
def epiZtoZ5 : HomLCA :=
  ⟨lcaZ, lcaZ5, fun x => x.map (fun xi => xi % 5), 0,
    fun _ => [0], fun y => y⟩

/-- The transversal rule of the scenario: y maps to y when y < 2.5 and to
y - 5 otherwise (on integers, y < 2.5 iff 2 * y < 5). -/
def ruleC4 : List ℤ → Option (List ℤ) :=
  fun l =>
    match l with
    | [y] => if 2 * y < 5 then some [y] else some [y - 5]
    | _ => none

/-- The transversed function of the scenario. -/
def fOnZC4 : Function ℚ := fOnZ5.transversal epiZtoZ5 ruleC4 0

/-- The sample points -5, ..., 5 passed as bare scalars. -/
def ptsC4 : List Arg := (List.range 11).map (fun i => Arg.scalar ((i : ℤ) - 5))

/-- `sum` on Z_2, used as a concrete witness function. -/
def fOnZ2 : Function ℚ := Function.ofFunc (fun l => ((l.sum : ℤ) : ℚ)) ⟨[2], [true]⟩

/-- `sum` on Z, a concrete witness function on a non-table domain. -/
def fOnZQ : Function ℚ := Function.ofFunc (fun l => ((l.sum : ℤ) : ℚ)) lcaZ

/-- A concrete 1 x 2 table. -/
def tableC10 : Table ℚ := Table.node [Table.leaf 1, Table.leaf 2]

/-- The Function built from `tableC10` on Z_2 (the initializer succeeds). -/
def fTableC10 : Function ℚ :=
  ⟨⟨[2], [true]⟩, list_caller tableC10, some tableC10⟩

/-! ### Helper lemmas -/

theorem project_element_idem (G : LCA) (x : List ℤ) :
    G.project_element (G.project_element x) = G.project_element x := by
  unfold LCA.project_element
  generalize G.periods = P
  induction x generalizing P with
  | nil => simp
  | cons xi xs ih =>
      cases P with
      | nil => simp
      | cons p ps =>
          simp only [List.zipWith_cons_cons]
          refine congrArg₂ _ ?_ (ih ps)
          by_cases h : 0 < p
          · simp [h, Int.emod_emod_of_dvd _ (dvd_refl p)]
          · simp [h]

theorem zip_take_right {a b : Type} (x : List a) (s : List b) :
    x.zip (s.take x.length) = x.zip s := by
  induction x generalizing s with
  | nil => simp
  | cons xi xs ih =>
      cases s with
      | nil => simp
      | cons si ss => simpa using ih ss

theorem foldl_filter_sum {β α : Type} [AddCommMonoid α] (c : β → Bool)
    (g : β → α) (l : List β) (a : α) :
    l.foldl (fun acc p => if c p then acc + g p else acc) a
      = a + (l.map (fun p => if c p then g p else 0)).sum := by
  induction l generalizing a with
  | nil => simp
  | cons p ps ih =>
      rw [List.foldl_cons, List.map_cons, List.sum_cons]
      by_cases h : c p = true
      · rw [if_pos h, if_pos h, ih, add_assoc]
      · rw [if_neg h, if_neg h, ih, zero_add]

theorem pushforward_sum_eq_windowSumSpec {α : Type} [AddCommMonoid α]
    (f : List ℤ → α) (x0 : List ℤ) (kerEval : List ℤ → List ℤ) (d : ℕ)
    (cond : List ℤ → Bool) :
    pushforward_sum f x0 kerEval d cond
      = windowSumSpec f x0 kerEval d (-8) 7 cond := by
  unfold pushforward_sum windowSumSpec
  have h8 : pyRange (-8) (7 + 1) = windowVec := by norm_num [windowVec]
  rw [h8]
  rw [foldl_filter_sum (fun p => cond (vecAdd x0 (kerEval p)))
    (fun p => f (vecAdd x0 (kerEval p)))]
  rw [zero_add]

/-! ### DFT lemmas: orthogonality of the phase factors and inversion -/

theorem phase_sum_eq_zero (N : ℕ) (hN : 0 < N) (j : ℤ)
    (hj : ¬ ((N : ℤ) ∣ j)) : ∑ k : Fin N, phase N j (k : ℕ) = 0 := by
  have hNC : ((N : ℕ) : ℂ) ≠ 0 := Nat.cast_ne_zero.mpr hN.ne'
  have h2pi : (2 * (Real.pi : ℂ) * Complex.I) ≠ 0 := by
    refine mul_ne_zero (mul_ne_zero two_ne_zero ?_) Complex.I_ne_zero
    exact Complex.ofReal_ne_zero.mpr Real.pi_ne_zero
  set ζ : ℂ := Complex.exp (2 * (Real.pi : ℂ) * Complex.I * (j : ℂ) / (N : ℂ))
    with hζ
  have hpow : ∀ k : Fin N, phase N j (k : ℕ) = ζ ^ (k : ℕ) := by
    intro k
    rw [hζ, ← Complex.exp_nat_mul]
    unfold phase
    congr 1
    ring
  have hζN : ζ ^ N = 1 := by
    rw [hζ, ← Complex.exp_nat_mul]
    have harg : (N : ℂ) * (2 * (Real.pi : ℂ) * Complex.I * (j : ℂ) / (N : ℂ))
        = (j : ℂ) * (2 * (Real.pi : ℂ) * Complex.I) := by
      field_simp
      ring
    rw [harg, Complex.exp_int_mul_two_pi_mul_I]
  have hζ1 : ζ ≠ 1 := by
    intro h1
    rw [hζ, Complex.exp_eq_one_iff] at h1
    obtain ⟨t, ht⟩ := h1
    apply hj
    refine ⟨t, ?_⟩
    have h4 : (2 * (Real.pi : ℂ) * Complex.I) * (j : ℂ)
        = (2 * (Real.pi : ℂ) * Complex.I) * ((N : ℂ) * (t : ℂ)) := by
      field_simp at ht
      linear_combination ht
    have h3 := mul_left_cancel₀ h2pi h4
    exact_mod_cast h3
  calc ∑ k : Fin N, phase N j (k : ℕ)
      = ∑ k : Fin N, ζ ^ (k : ℕ) :=
        Finset.sum_congr rfl (fun k _ => hpow k)
    _ = ∑ k ∈ Finset.range N, ζ ^ k := Fin.sum_univ_eq_sum_range _ _
    _ = (ζ ^ N - 1) / (ζ - 1) := geom_sum_eq hζ1 N
    _ = 0 := by rw [hζN]; simp

theorem phase_sum_delta (N : ℕ) (hN : 0 < N) (m n : Fin N) :
    ∑ k : Fin N, phase N (((m : ℕ) : ℤ) - ((n : ℕ) : ℤ)) (k : ℕ)
      = if m = n then ((N : ℕ) : ℂ) else 0 := by
  by_cases h : m = n
  · subst h
    rw [if_pos rfl]
    have h1 : ∀ k : Fin N, phase N (((m : ℕ) : ℤ) - ((m : ℕ) : ℤ)) (k : ℕ)
        = 1 := by
      intro k
      simp [phase]
    rw [Finset.sum_congr rfl (fun k _ => h1 k)]
    simp
  · rw [if_neg h]
    apply phase_sum_eq_zero N hN
    intro hdvd
    have hm := m.isLt
    have hn := n.isLt
    have hz : ((m : ℕ) : ℤ) - ((n : ℕ) : ℤ) = 0 :=
      Int.eq_zero_of_dvd_of_natAbs_lt_natAbs hdvd (by omega)
    exact h (Fin.ext (by omega))

theorem exp_phase_split (n1 m1 : Fin 5) (n2 m2 : Fin 4) (n3 m3 : Fin 3)
    (k1 : Fin 5) (k2 : Fin 4) (k3 : Fin 3) :
    Complex.exp (-(2 * (Real.pi : ℂ) * Complex.I) * dftPhase n1 n2 n3 k1 k2 k3)
      * Complex.exp ((2 * (Real.pi : ℂ) * Complex.I) * dftPhase m1 m2 m3 k1 k2 k3)
    = phase 5 (((m1 : ℕ) : ℤ) - ((n1 : ℕ) : ℤ)) (k1 : ℕ)
        * phase 4 (((m2 : ℕ) : ℤ) - ((n2 : ℕ) : ℤ)) (k2 : ℕ)
        * phase 3 (((m3 : ℕ) : ℤ) - ((n3 : ℕ) : ℤ)) (k3 : ℕ) := by
  unfold phase dftPhase
  rw [← Complex.exp_add, ← Complex.exp_add, ← Complex.exp_add]
  congr 1
  push_cast
  ring

theorem sum3_as_prod {M : Type} [AddCommMonoid M]
    (F : Fin 5 → Fin 4 → Fin 3 → M) :
    ∑ p : Fin 5 × Fin 4 × Fin 3, F p.1 p.2.1 p.2.2
      = ∑ a : Fin 5, ∑ b : Fin 4, ∑ c : Fin 3, F a b c := by
  rw [Fintype.sum_prod_type]
  refine Finset.sum_congr rfl (fun a _ => ?_)
  rw [Fintype.sum_prod_type]

theorem sum_mul_three (f : Fin 5 → ℂ) (g : Fin 4 → ℂ) (h : Fin 3 → ℂ) :
    (∑ k1 : Fin 5, ∑ k2 : Fin 4, ∑ k3 : Fin 3, f k1 * g k2 * h k3)
      = (∑ k1 : Fin 5, f k1) * (∑ k2 : Fin 4, g k2) * (∑ k3 : Fin 3, h k3) := by
  symm
  rw [Finset.sum_mul_sum, Finset.sum_mul]
  refine Finset.sum_congr rfl (fun k1 _ => ?_)
  rw [Finset.sum_mul]
  refine Finset.sum_congr rfl (fun k2 _ => ?_)
  rw [Finset.mul_sum]

theorem delta_prod (m1 p1 : Fin 5) (m2 p2 : Fin 4) (m3 p3 : Fin 3) :
    (if m1 = p1 then ((5 : ℕ) : ℂ) else 0)
        * (if m2 = p2 then ((4 : ℕ) : ℂ) else 0)
        * (if m3 = p3 then ((3 : ℕ) : ℂ) else 0)
      = if (m1, m2, m3) = (p1, p2, p3) then (60 : ℂ) else 0 := by
  by_cases h1 : m1 = p1 <;> by_cases h2 : m2 = p2 <;> by_cases h3 : m3 = p3 <;>
    simp [h1, h2, h3, Prod.ext_iff]
  norm_num

theorem phase_sum_delta543 (m1 p1 : Fin 5) (m2 p2 : Fin 4) (m3 p3 : Fin 3) :
    (∑ q : Fin 5 × Fin 4 × Fin 3,
        phase 5 (((m1 : ℕ) : ℤ) - ((p1 : ℕ) : ℤ)) (q.1 : ℕ)
          * phase 4 (((m2 : ℕ) : ℤ) - ((p2 : ℕ) : ℤ)) (q.2.1 : ℕ)
          * phase 3 (((m3 : ℕ) : ℤ) - ((p3 : ℕ) : ℤ)) (q.2.2 : ℕ))
      = if (m1, m2, m3) = (p1, p2, p3) then (60 : ℂ) else 0 := by
  rw [sum3_as_prod (fun a b c =>
    phase 5 (((m1 : ℕ) : ℤ) - ((p1 : ℕ) : ℤ)) (a : ℕ)
      * phase 4 (((m2 : ℕ) : ℤ) - ((p2 : ℕ) : ℤ)) (b : ℕ)
      * phase 3 (((m3 : ℕ) : ℤ) - ((p3 : ℕ) : ℤ)) (c : ℕ))]
  rw [sum_mul_three]
  rw [phase_sum_delta 5 (by norm_num) m1 p1,
    phase_sum_delta 4 (by norm_num) m2 p2,
    phase_sum_delta 3 (by norm_num) m3 p3]
  exact delta_prod m1 p1 m2 p2 m3 p3

theorem np_fftn3_as_prod (a : Fin 5 → Fin 4 → Fin 3 → ℂ) (k1 : Fin 5)
    (k2 : Fin 4) (k3 : Fin 3) :
    np_fftn3 a k1 k2 k3
      = ∑ p : Fin 5 × Fin 4 × Fin 3,
          a p.1 p.2.1 p.2.2 *
            Complex.exp (-(2 * (Real.pi : ℂ) * Complex.I)
              * dftPhase p.1 p.2.1 p.2.2 k1 k2 k3) := by
  rw [np_fftn3, sum3_as_prod (fun x y z =>
    a x y z * Complex.exp (-(2 * (Real.pi : ℂ) * Complex.I)
      * dftPhase x y z k1 k2 k3))]

theorem inversion543 (a : Fin 5 → Fin 4 → Fin 3 → ℂ) (m1 : Fin 5)
    (m2 : Fin 4) (m3 : Fin 3) :
    np_ifftn3 (np_fftn3 a) m1 m2 m3 = a m1 m2 m3 := by
  rw [np_ifftn3]
  rw [← sum3_as_prod (fun k1 k2 k3 =>
    np_fftn3 a k1 k2 k3 * Complex.exp ((2 * (Real.pi : ℂ) * Complex.I)
      * dftPhase m1 m2 m3 k1 k2 k3))]
  simp only [np_fftn3_as_prod]
  simp only [Finset.sum_mul]
  rw [Finset.sum_comm]
  have hterm : ∀ p q : Fin 5 × Fin 4 × Fin 3,
      (a p.1 p.2.1 p.2.2
          * Complex.exp (-(2 * (Real.pi : ℂ) * Complex.I)
              * dftPhase p.1 p.2.1 p.2.2 q.1 q.2.1 q.2.2))
        * Complex.exp ((2 * (Real.pi : ℂ) * Complex.I)
            * dftPhase m1 m2 m3 q.1 q.2.1 q.2.2)
      = a p.1 p.2.1 p.2.2
          * (phase 5 (((m1 : ℕ) : ℤ) - ((p.1 : ℕ) : ℤ)) (q.1 : ℕ)
              * phase 4 (((m2 : ℕ) : ℤ) - ((p.2.1 : ℕ) : ℤ)) (q.2.1 : ℕ)
              * phase 3 (((m3 : ℕ) : ℤ) - ((p.2.2 : ℕ) : ℤ)) (q.2.2 : ℕ)) := by
    intro p q
    rw [mul_assoc, exp_phase_split]
  simp only [hterm]
  simp only [← Finset.mul_sum]
  simp only [phase_sum_delta543]
  simp only [Prod.mk.eta]
  simp only [mul_ite, mul_zero]
  rw [Fintype.sum_ite_eq (m1, m2, m3) (fun p => a p.1 p.2.1 p.2.2 * 60)]
  show (1 / 60 : ℂ) * (a m1 m2 m3 * 60) = a m1 m2 m3
  ring

theorem np_ifftn3_div (B : Fin 5 → Fin 4 → Fin 3 → ℂ) (m1 : Fin 5)
    (m2 : Fin 4) (m3 : Fin 3) :
    np_ifftn3 (fun k1 k2 k3 => B k1 k2 k3 / 60) m1 m2 m3
      = np_ifftn3 B m1 m2 m3 / 60 := by
  unfold np_ifftn3
  simp only [div_mul_eq_mul_div, ← Finset.sum_div]
  ring

/-- The scaling convention cancels on the round trip: dividing the
forward numpy transform by 60 and multiplying the inverse by 60 composes
to the identity. -/
theorem roundtrip543 (a : Fin 5 → Fin 4 → Fin 3 → ℂ) (m1 : Fin 5)
    (m2 : Fin 4) (m3 : Fin 3) :
    scaledTransform false (scaledTransform true a) m1 m2 m3 = a m1 m2 m3 := by
  have h : scaledTransform false (scaledTransform true a) m1 m2 m3
      = np_ifftn3 (fun k1 k2 k3 => np_fftn3 a k1 k2 k3 / 60) m1 m2 m3 * 60 :=
    rfl
  rw [h, np_ifftn3_div (np_fftn3 a), inversion543]
  field_simp

/-! ### Table lookup lemmas -/

theorem call_nested_ftt_aux {α : Type} (rep : List ℤ → α) :
    ∀ (idx dims pref : List ℤ),
      List.Forall₂ (fun i d => 0 ≤ i ∧ i < d) idx dims →
      call_nested_list idx (function_to_table_aux rep pref dims)
        = some (rep (pref ++ idx))
  | [], [], pref, _ => by
      simp [function_to_table_aux, call_nested_list]
  | [], _ :: _, _, h => nomatch h
  | _ :: _, [], _, h => nomatch h
  | i :: is, d :: ds, pref, h => by
      obtain ⟨⟨h0, hlt⟩, htail⟩ := List.forall₂_cons.mp h
      have hi : i.toNat < d.toNat := by omega
      simp only [function_to_table_aux, call_nested_list]
      rw [List.get?_eq_getElem?, List.getElem?_map, List.getElem?_range hi]
      simp only [Option.map_some', Option.some_bind]
      rw [call_nested_ftt_aux rep is ds (pref ++ [(i.toNat : ℤ)]) htail]
      rw [Int.toNat_of_nonneg h0]
      rw [List.append_assoc]
      rfl

theorem verify_ftt_aux {α : Type} (rep : List ℤ → α) :
    ∀ (dims pref : List ℤ),
      verify_dims_list dims (function_to_table_aux rep pref dims) = true
  | [], _ => rfl
  | d :: ds, pref => by
      simp only [function_to_table_aux, verify_dims_list]
      rw [Bool.and_eq_true]
      constructor
      · simp
      · rw [List.all_eq_true]
        intro t ht
        rw [List.mem_map] at ht
        obtain ⟨j, _, rfl⟩ := ht
        exact verify_ftt_aux rep ds (pref ++ [(j : ℤ)])

theorem toFin_coe (n : ℕ) (h : 0 < n) (k : Fin n) :
    toFin n h (((k : ℕ) : ℤ)) = k := by
  unfold toFin
  apply Fin.ext
  simp [Nat.mod_eq_of_lt k.isLt]

theorem fun3ToList_coe (g : Fin 5 → Fin 4 → Fin 3 → ℂ) (k1 : Fin 5)
    (k2 : Fin 4) (k3 : Fin 3) :
    fun3ToList g [((k1 : ℕ) : ℤ), ((k2 : ℕ) : ℤ), ((k3 : ℕ) : ℤ)]
      = g k1 k2 k3 := by
  show g (toFin 5 (by norm_num) ((k1 : ℕ) : ℤ))
      (toFin 4 (by norm_num) ((k2 : ℕ) : ℤ))
      (toFin 3 (by norm_num) ((k3 : ℕ) : ℤ)) = g k1 k2 k3
  rw [toFin_coe, toFin_coe, toFin_coe]

theorem forall₂_543 (m1 : Fin 5) (m2 : Fin 4) (m3 : Fin 3) :
    List.Forall₂ (fun i d => 0 ≤ i ∧ i < d)
      [((m1 : ℕ) : ℤ), ((m2 : ℕ) : ℤ), ((m3 : ℕ) : ℤ)] [5, 4, 3] := by
  refine List.Forall₂.cons
    ⟨Int.natCast_nonneg _, by exact_mod_cast m1.isLt⟩ ?_
  refine List.Forall₂.cons
    ⟨Int.natCast_nonneg _, by exact_mod_cast m2.isLt⟩ ?_
  exact List.Forall₂.cons
    ⟨Int.natCast_nonneg _, by exact_mod_cast m3.isLt⟩ List.Forall₂.nil

theorem tableToFun3_function_to_table (rep : List ℤ → ℂ) (k1 : Fin 5)
    (k2 : Fin 4) (k3 : Fin 3) :
    tableToFun3 (function_to_table rep [5, 4, 3]) k1 k2 k3
      = rep [((k1 : ℕ) : ℤ), ((k2 : ℕ) : ℤ), ((k3 : ℕ) : ℤ)] := by
  unfold tableToFun3 function_to_table
  rw [call_nested_ftt_aux rep _ _ [] (forall₂_543 k1 k2 k3)]
  simp

theorem tableToFun3_funToTable3 (g : Fin 5 → Fin 4 → Fin 3 → ℂ) :
    tableToFun3 (funToTable3 g) = g := by
  funext k1 k2 k3
  unfold funToTable3
  rw [tableToFun3_function_to_table, fun3ToList_coe]

theorem fft_wrapper543_eq (fw : Bool) (f : Function ℂ)
    (h : f.domain = domain543) :
    fft_wrapper543 fw f = PyResult.ok
      ⟨domain543,
        list_caller (funToTable3 (scaledTransform fw
          (tableToFun3 ((Function.to_table f).1.getD (Table.leaf 0))))),
        some (funToTable3 (scaledTransform fw
          (tableToFun3 ((Function.to_table f).1.getD (Table.leaf 0)))))⟩ := by
  unfold fft_wrapper543
  rw [h]
  rw [if_neg (by decide :
    ¬ (fft_wrapper_entry domain543 = GuardStep.returnedErrorValue))]
  have hv : verify_dims_list domain543.periods
      (funToTable3 (scaledTransform fw
        (tableToFun3 ((Function.to_table f).1.getD (Table.leaf 0))))) = true :=
    verify_ftt_aux _ [5, 4, 3] []
  simp only [Function.init]
  rw [if_neg (by decide : ¬ (¬ discrete_periodic_domain domain543 = true))]
  rw [if_neg (by simp [hv])]

/-! ### Claims -/

/-- C9: `shift(list_shift)` performs no length validation: the returned
representation evaluates the original on the componentwise differences of
the zip of argument and shift vector, whose length is
min(len(x), len(s)) — a short shift vector silently truncates the
coordinate list handed to the original representation, and extra shift
entries beyond the argument length are silently ignored; concretely, a
function on a 2-dimensional domain shifted by the 1-entry vector [1]
receives a 1-element coordinate list. -/
theorem C9_shift_truncation {α : Type} (f : Function α) (s x : List ℤ) :
    (f.shift s).representation x = f.representation (shiftArgs x s)
    ∧ (f.shift s).domain = f.domain
    ∧ (shiftArgs x s).length = min x.length s.length
    ∧ shiftArgs x s = shiftArgs x (s.take x.length)
    ∧ ((Function.ofFunc (fun l => ((l.length : ℤ) : ℚ)) ⟨[0, 0], [true, true]⟩).shift
        [1]).representation [5, 5] = 1 := by
  refine ⟨rfl, rfl, ?_, ?_, by decide⟩
  · simp [shiftArgs]
  · unfold shiftArgs
    rw [zip_take_right]

/-- C7: on a domain of dimension 1, evaluating at a bare scalar equals
evaluating at the corresponding one-element list (the scalar is wrapped);
and for every Function, a list argument whose length differs from the
domain dimension fails with the argument-length error. -/
theorem C7_evaluate_scalar_wrap {α : Type} (f : Function α) :
    (f.domain.length = 1 →
      ∀ s : ℤ, f.evaluate (Arg.scalar s) = f.evaluate (Arg.vec [s]))
    ∧ (∀ l : List ℤ, l.length ≠ f.domain.length →
        f.evaluate (Arg.vec l) = Except.error FuncError.argumentLength) := by
  constructor
  · intro h s
    simp [Function.evaluate, h]
  · intro l hl
    simp [Function.evaluate, Ne.symm hl]

/-- C7 witness: on Z_5 (dimension 1) with f(x) = (sum x)^2, evaluate(7) =
evaluate([7]) = 4, and a length-2 argument fails with the argument-length
error. -/
theorem C7_witness :
    fOnZ5.evaluate (Arg.scalar 7) = fOnZ5.evaluate (Arg.vec [7])
    ∧ fOnZ5.evaluate (Arg.scalar 7) = Except.ok 4
    ∧ fOnZ5.evaluate (Arg.vec [1, 2]) = Except.error FuncError.argumentLength := by
  refine ⟨(C7_evaluate_scalar_wrap fOnZ5).1 rfl 7, by decide,
    (C7_evaluate_scalar_wrap fOnZ5).2 [1, 2] (by decide)⟩

/-- C4: the function returned by `transversal` evaluates (at
representation level) to `self.representation(phi.evaluate(x))` exactly
when the transversal rule applied to `phi.evaluate(x)` returns `x`
itself, and to the default value otherwise; and in the concrete scenario
— domain Z_5, f(x) = (sum(x))^2, epimorphism Z onto Z_5, rule
x maps to x when x < 2.5 and to x - 5 otherwise — sampling over
-5, ..., 5 yields [0,0,0,9,16,0,1,4,0,0,0]. -/
theorem C4_transversal {α : Type} (f : Function α) (epi : HomLCA)
    (rule : List ℤ → Option (List ℤ)) (default : α) (x : List ℤ) :
    ((f.transversal epi rule default).representation x
      = if rule (epi.eval x) = some x then f.representation (epi.eval x)
        else default)
    ∧ (f.transversal epi rule default).domain = epi.source
    ∧ fOnZC4.sample ptsC4
      = [Except.ok 0, Except.ok 0, Except.ok 0, Except.ok 9, Except.ok 16,
         Except.ok 0, Except.ok 1, Except.ok 4, Except.ok 0, Except.ok 0,
         Except.ok 0] := by
  refine ⟨rfl, rfl, by decide⟩

/-- C3 (code bug): the spec requires dft/idft on a domain that is not
fully discrete with positive finite periods to fail by raising at the
point of the call.  The code's guard instead RETURNS the error object as
the call's value (`return ValueError(...)`), and its condition
`not all(p > 0 for p in dims) and domain.is_FGA()` does not even trigger
for non-FGA domains, which proceed past the guard: on the FGA domain Z
the wrapper returns the error value, and on the non-discrete domain with
period list [0] the guard falls through; neither domain is discrete
periodic, and a dft call on Z returns the error object as a value. -/
theorem C3_fft_guard_code_bug :
    fft_wrapper_entry lcaZ = GuardStep.returnedErrorValue
    ∧ fft_wrapper_entry ⟨[0], [false]⟩ = GuardStep.proceeded
    ∧ discrete_periodic_domain lcaZ = false
    ∧ discrete_periodic_domain ⟨[0], [false]⟩ = false
    ∧ fft_wrapper543 true (Function.ofFunc (fun _ => (0 : ℂ)) lcaZ)
        = PyResult.errValue FuncError.unsupportedDomain := by
  refine ⟨by decide, by decide, by decide, by decide, ?_⟩
  simp [fft_wrapper543, fft_wrapper_entry, Function.ofFunc, lcaZ, LCA.is_FGA]

/-- C5: pullback produces a new Function on `phi.source` whose
representation is the exact composition x maps to
`self.representation(phi.evaluate(x))`, fails with the domain-mismatch
error when `phi.target` is not structurally equal to the function's
domain, and pulling back along the identity morphism leaves all sampled
values unchanged. -/
theorem C5_pullback {α : Type} (f : Function α) (φ : HomLCA) :
    (f.domain = φ.target →
      ∃ g, f.pullback φ = Except.ok g ∧ g.domain = φ.source ∧
        ∀ x, g.representation x = f.representation (φ.eval x))
    ∧ (f.domain ≠ φ.target →
        f.pullback φ = Except.error FuncError.domainMismatch)
    ∧ (∃ g, f.pullback (idHom f.domain) = Except.ok g ∧
        ∀ pts, g.sample pts = f.sample pts) := by
  refine ⟨?_, ?_, ?_⟩
  · intro h
    refine ⟨⟨φ.source, fun l => f.representation (φ.eval l), none⟩, ?_, rfl,
      fun x => rfl⟩
    simp [Function.pullback, h]
  · intro h
    simp [Function.pullback, h]
  · refine ⟨⟨f.domain, fun l => f.representation (f.domain.project_element l),
      none⟩, by simp [Function.pullback, idHom], ?_⟩
    intro pts
    unfold Function.sample
    refine List.map_congr_left (fun p _ => ?_)
    cases p with
    | scalar z =>
        simp only [Function.evaluate, idHom, LCA.length]
        split
        · rfl
        · split
          · rw [project_element_idem]
          · rfl
    | vec l =>
        simp only [Function.evaluate, idHom, LCA.length]
        split
        · rfl
        · rw [project_element_idem]

/-- C5 witness: concrete pullback of (sum x)^2 on Z_5 along the morphism
Z to Z_5 (matching target), along a morphism with target Z_1
(mismatch), and along the identity. -/
theorem C5_witness :
    (∃ g, fOnZ5.pullback epiZtoZ5 = Except.ok g ∧ g.domain = epiZtoZ5.source ∧
      ∀ x, g.representation x = fOnZ5.representation (epiZtoZ5.eval x))
    ∧ fOnZ5.pullback phiZtoZ1 = Except.error FuncError.domainMismatch
    ∧ (∃ g, fOnZ5.pullback (idHom fOnZ5.domain) = Except.ok g ∧
        ∀ pts, g.sample pts = fOnZ5.sample pts) :=
  ⟨(C5_pullback fOnZ5 epiZtoZ5).1 rfl,
    (C5_pullback fOnZ5 phiZtoZ1).2.1 (by decide),
    (C5_pullback fOnZ5 phiZtoZ1).2.2⟩

/-- C6: on a discrete periodic domain, the first `to_table` call on an
instance with no table yet materializes the representation over the full
cartesian product of coordinate ranges, caches it in the instance, and a
second call returns the identical cached table with the instance state
unchanged; on any other domain `to_table` returns no table (None) rather
than raising. -/
theorem C6_to_table_memoization (f : Function ℚ)
    (hd : discrete_periodic_domain f.domain = true) (ht : f.table = none) :
    f.to_table.1 = some (function_to_table f.representation f.domain.periods)
    ∧ f.to_table.2.table
        = some (function_to_table f.representation f.domain.periods)
    ∧ f.to_table.2.to_table = f.to_table
    ∧ (∀ g : Function ℚ, discrete_periodic_domain g.domain = false →
        g.to_table = (none, g)) := by
  refine ⟨?_, ?_, ?_, ?_⟩
  · simp [Function.to_table, hd, ht]
  · simp [Function.to_table, hd, ht]
  · simp [Function.to_table, hd, ht]
  · intro g hg
    simp [Function.to_table, hg]

/-- C6 witness: the sum function on Z_2 materializes its table on the
first call (entry at index 1 is 1), the second call returns the same
cached pair, and on the non-periodic domain Z no table is produced. -/
theorem C6_witness :
    fOnZ2.to_table.1
      = some (function_to_table fOnZ2.representation fOnZ2.domain.periods)
    ∧ fOnZ2.to_table.2.to_table = fOnZ2.to_table
    ∧ fOnZ2.to_table.1.map (fun t => call_nested_list [1] t)
      = some (some 1)
    ∧ fOnZQ.to_table = (none, fOnZQ) :=
  ⟨(C6_to_table_memoization fOnZ2 rfl rfl).1,
    (C6_to_table_memoization fOnZ2 rfl rfl).2.2.1,
    by decide,
    (C6_to_table_memoization fOnZ2 rfl rfl).2.2.2 fOnZQ rfl⟩

/-- C8: with the instance state threaded explicitly, each of shift,
pullback, pushforward, transversal, pointwise and copy leaves the
receiver exactly as it was (their bodies perform no attribute write),
and each result is a freshly initialized instance (for the closure-built
transforms the new table field is None).  dft/idft call `self.to_table()`
inside `_fft_wrapper`, which may write the receiver's table cache — the
only per-instance state ever written — so for the spectral transforms
the receiver's representation and domain are unchanged after the call,
as they are after `to_table` itself. -/
theorem C8_transforms_immutable {α : Type} [AddCommMonoid α]
    (f other : Function α) (fc : Function ℂ) (φ : HomLCA) (s : List ℤ)
    (rule : List ℤ → Option (List ℤ)) (dflt : α) (op : α → α → α)
    (nc : Option (List ℤ → Bool)) (fw : Bool) :
    (f.shiftM s).2 = f ∧ (f.shiftM s).1.table = none
    ∧ (f.pullbackM φ).2 = f
    ∧ (f.pullbackM φ).1.map (fun g => g.table)
        = (f.pullbackM φ).1.map (fun _ => none)
    ∧ (f.pushforwardM φ nc).2 = f
    ∧ (f.pushforwardM φ nc).1.map (fun g => g.table)
        = (f.pushforwardM φ nc).1.map (fun _ => none)
    ∧ (f.transversalM φ rule dflt).2 = f
    ∧ (f.transversalM φ rule dflt).1.table = none
    ∧ (f.pointwiseM other op).2 = f
    ∧ (f.pointwiseM other op).1.map (fun g => g.table)
        = (f.pointwiseM other op).1.map (fun _ => none)
    ∧ f.copyM.2 = f ∧ f.copyM.1.table = none
    ∧ (fft_wrapper543M fw fc).2.representation = fc.representation
    ∧ (fft_wrapper543M fw fc).2.domain = fc.domain
    ∧ f.to_table.2.representation = f.representation
    ∧ f.to_table.2.domain = f.domain := by
  refine ⟨rfl, rfl, rfl, ?_, rfl, ?_, rfl, rfl, rfl, ?_, rfl, rfl, ?_, ?_, ?_, ?_⟩
  · unfold Function.pullbackM Function.pullback
    split <;> rfl
  · unfold Function.pushforwardM Function.pushforward
    split <;> rfl
  · unfold Function.pointwiseM Function.pointwise
    split <;> rfl
  · show (if fft_wrapper_entry fc.domain = GuardStep.returnedErrorValue then fc
      else (Function.to_table fc).2).representation = fc.representation
    split
    · rfl
    · unfold Function.to_table
      split
      · rfl
      · split <;> rfl
  · show (if fft_wrapper_entry fc.domain = GuardStep.returnedErrorValue then fc
      else (Function.to_table fc).2).domain = fc.domain
    split
    · rfl
    · unfold Function.to_table
      split
      · rfl
      · split <;> rfl
  · unfold Function.to_table
    split
    · rfl
    · split <;> rfl
  · unfold Function.to_table
    split
    · rfl
    · split <;> rfl

/-- C10: a Function constructed directly from a table carries the table,
but its copy does not: the copied representation is the plain lookup
closure, the copy's table field is None until `to_table` recomputes it,
and the copy evaluates to the same value as the original at every
point. -/
theorem C10_copy_drops_table (t : Table ℚ) (G : LCA) (f : Function ℚ)
    (h : Function.init (FuncRepr.table t) G = Except.ok f) :
    f.table = some t
    ∧ f.copy.table = none
    ∧ (∀ arg, f.copy.evaluate arg = f.evaluate arg)
    ∧ f.copy.to_table.1
        = some (function_to_table f.representation G.periods) := by
  have hdp : discrete_periodic_domain G = true := by
    by_contra hc
    simp [Function.init, hc] at h
  have hv : verify_dims_list G.periods t = true := by
    by_contra hc
    simp [Function.init, hdp, hc] at h
  have hf : f = ⟨G, list_caller t, some t⟩ := by
    simp [Function.init, hdp, hv] at h
    exact h.symm
  subst hf
  refine ⟨rfl, rfl, fun arg => rfl, ?_⟩
  simp [Function.copy, Function.to_table, LCA.copy, hdp]

/-- C10 witness: the Function built from the table [1, 2] on Z_2 caches
the table; its copy has no table, still evaluates to 2 at [1], and
recomputes a table on demand. -/
theorem C10_witness :
    fTableC10.table = some tableC10
    ∧ fTableC10.copy.table = none
    ∧ fTableC10.copy.evaluate (Arg.vec [1]) = fTableC10.evaluate (Arg.vec [1])
    ∧ fTableC10.copy.evaluate (Arg.vec [1]) = Except.ok 2
    ∧ fTableC10.copy.to_table.1
        = some (function_to_table fTableC10.representation
            (LCA.mk [2] [true]).periods) :=
  ⟨(C10_copy_drops_table tableC10 ⟨[2], [true]⟩ fTableC10 rfl).1,
    (C10_copy_drops_table tableC10 ⟨[2], [true]⟩ fTableC10 rfl).2.1,
    (C10_copy_drops_table tableC10 ⟨[2], [true]⟩ fTableC10 rfl).2.2.1
      (Arg.vec [1]),
    by decide,
    (C10_copy_drops_table tableC10 ⟨[2], [true]⟩ fTableC10 rfl).2.2.2⟩

/-- C1 (amended): with default parameters, the pushforward's value at y
is the sum of `self.representation(x0 + kernel(c))` over the integer
combination vectors c in the window [-8, 7]^d — Python's range(-8, 8),
the upper endpoint 8 excluded — restricted to candidates of L1 norm at
most 10, where x0 is the solver's particular solution and d the
dimension of the kernel morphism's source. -/
theorem C1_pushforward_window {α : Type} [AddCommMonoid α] (f : Function α)
    (φ : HomLCA) (h : f.domain = φ.source) :
    ∃ g, f.pushforward φ none = Except.ok g
      ∧ g.domain = φ.target
      ∧ ∀ y, g.representation y
          = windowSumSpec f.representation (φ.solveFn y) φ.kerEval
              φ.kerSourceLen (-8) 7 defaultNormCondition := by
  refine ⟨⟨φ.target,
    fun y => pushforward_sum f.representation (φ.solveFn y) φ.kerEval
      φ.kerSourceLen defaultNormCondition, none⟩, ?_, rfl, ?_⟩
  · simp [Function.pushforward, h, Option.getD]
  · intro y
    exact pushforward_sum_eq_windowSumSpec _ _ _ _ _

/-- C1 counterexample: the claim's window is [-8, 8]^d.  For the constant
function 1 on Z pushed forward along the morphism Z to Z_1 (kernel the
identity on Z, particular solution [0], d = 1), the code's value at [0]
is 16 — the 16 window points -8, ..., 7, all of L1 norm at most 10 —
while the sum over the claimed window [-8, 8] of the same admissible
candidates is 17. -/
theorem C1_counterexample :
    (fConstOne.pushforward phiZtoZ1 none).toOption.map
        (fun g => g.representation [0]) = some 16
    ∧ windowSumSpec fConstOne.representation (phiZtoZ1.solveFn [0])
        phiZtoZ1.kerEval phiZtoZ1.kerSourceLen (-8) 8 defaultNormCondition
        = 17
    ∧ (16 : ℤ) ≠ 17 := by
  refine ⟨by decide, by decide, by norm_num⟩

/-- C1 witness: the amended statement at the concrete configuration; the
code's pushforward value at [0] is 16, the [-8, 7] window sum. -/
theorem C1_witness :
    (∃ g, fConstOne.pushforward phiZtoZ1 none = Except.ok g
      ∧ g.domain = phiZtoZ1.target
      ∧ ∀ y, g.representation y
          = windowSumSpec fConstOne.representation (phiZtoZ1.solveFn y)
              phiZtoZ1.kerEval phiZtoZ1.kerSourceLen (-8) 7
              defaultNormCondition)
    ∧ windowSumSpec fConstOne.representation (phiZtoZ1.solveFn [0])
        phiZtoZ1.kerEval phiZtoZ1.kerSourceLen (-8) 7 defaultNormCondition
        = 16 :=
  ⟨C1_pushforward_window fConstOne phiZtoZ1 rfl, by decide⟩

/-- C2: for the Function built from linear(coords) = sum(coords) on
Z_5 x Z_4 x Z_3, dft() followed by idft() yields a Function whose value
at every domain point differs from the original's by at most 1e-9 in
absolute value: the forward transform divides by the product of the
periods (60) and the inverse multiplies by it, so the round trip needs no
extra normalization — in exact arithmetic the two values coincide. -/
theorem C2_dft_idft_roundtrip (m1 : Fin 5) (m2 : Fin 4) (m3 : Fin 3) :
    fft_wrapper543 true fC2 = PyResult.ok g1C2
    ∧ fft_wrapper543 false g1C2 = PyResult.ok g2C2
    ∧ ∃ v w : ℂ,
        g2C2.evaluate
            (Arg.vec [((m1 : ℕ) : ℤ), ((m2 : ℕ) : ℤ), ((m3 : ℕ) : ℤ)])
          = Except.ok v
        ∧ fC2.evaluate
            (Arg.vec [((m1 : ℕ) : ℤ), ((m2 : ℕ) : ℤ), ((m3 : ℕ) : ℤ)])
          = Except.ok w
        ∧ Complex.abs (v - w) ≤ 1 / 1000000000 := by
  have hwrap1 := fft_wrapper543_eq true fC2 rfl
  have hg1 : g1C2 = ⟨domain543,
      list_caller (funToTable3 (scaledTransform true
        (tableToFun3 ((Function.to_table fC2).1.getD (Table.leaf 0))))),
      some (funToTable3 (scaledTransform true
        (tableToFun3 ((Function.to_table fC2).1.getD (Table.leaf 0)))))⟩ := by
    unfold g1C2
    rw [hwrap1]
    rfl
  have hg1dom : g1C2.domain = domain543 := by rw [hg1]
  have hwrap2 := fft_wrapper543_eq false g1C2 hg1dom
  have hg2 : g2C2 = ⟨domain543,
      list_caller (funToTable3 (scaledTransform false
        (tableToFun3 ((Function.to_table g1C2).1.getD (Table.leaf 0))))),
      some (funToTable3 (scaledTransform false
        (tableToFun3 ((Function.to_table g1C2).1.getD (Table.leaf 0)))))⟩ := by
    unfold g2C2
    rw [hwrap2]
    rfl
  have b1 : ((m1 : ℕ) : ℤ) < 5 := by exact_mod_cast m1.isLt
  have b2 : ((m2 : ℕ) : ℤ) < 4 := by exact_mod_cast m2.isLt
  have b3 : ((m3 : ℕ) : ℤ) < 3 := by exact_mod_cast m3.isLt
  have hproj : domain543.project_element
      [((m1 : ℕ) : ℤ), ((m2 : ℕ) : ℤ), ((m3 : ℕ) : ℤ)]
      = [((m1 : ℕ) : ℤ), ((m2 : ℕ) : ℤ), ((m3 : ℕ) : ℤ)] := by
    simp [LCA.project_element, domain543,
      Int.emod_eq_of_lt (Int.natCast_nonneg _) b1,
      Int.emod_eq_of_lt (Int.natCast_nonneg _) b2,
      Int.emod_eq_of_lt (Int.natCast_nonneg _) b3]
  have heval : ∀ F : Function ℂ, F.domain = domain543 →
      F.evaluate (Arg.vec [((m1 : ℕ) : ℤ), ((m2 : ℕ) : ℤ), ((m3 : ℕ) : ℤ)])
        = Except.ok (F.representation
            [((m1 : ℕ) : ℤ), ((m2 : ℕ) : ℤ), ((m3 : ℕ) : ℤ)]) := by
    intro F hF
    show (if F.domain.length ≠ 3 then
        (Except.error FuncError.argumentLength : Except FuncError ℂ)
      else Except.ok (F.representation (F.domain.project_element
        [((m1 : ℕ) : ℤ), ((m2 : ℕ) : ℤ), ((m3 : ℕ) : ℤ)]))) = _
    rw [hF]
    rw [if_neg (by decide : ¬ (domain543.length ≠ 3))]
    rw [hproj]
  have hcache : (Function.to_table g1C2).1.getD (Table.leaf 0)
      = funToTable3 (scaledTransform true
          (tableToFun3 ((Function.to_table fC2).1.getD (Table.leaf 0)))) := by
    rw [hg1]
    rfl
  have hT0 : (Function.to_table fC2).1.getD (Table.leaf 0)
      = function_to_table linearC [5, 4, 3] := rfl
  have hval : g2C2.representation
      [((m1 : ℕ) : ℤ), ((m2 : ℕ) : ℤ), ((m3 : ℕ) : ℤ)]
      = fC2.representation
          [((m1 : ℕ) : ℤ), ((m2 : ℕ) : ℤ), ((m3 : ℕ) : ℤ)] := by
    rw [hg2]
    show list_caller (funToTable3 (scaledTransform false
        (tableToFun3 ((Function.to_table g1C2).1.getD (Table.leaf 0)))))
        [((m1 : ℕ) : ℤ), ((m2 : ℕ) : ℤ), ((m3 : ℕ) : ℤ)]
      = fC2.representation
          [((m1 : ℕ) : ℤ), ((m2 : ℕ) : ℤ), ((m3 : ℕ) : ℤ)]
    rw [hcache, tableToFun3_funToTable3, hT0]
    unfold list_caller funToTable3 function_to_table
    rw [call_nested_ftt_aux _ _ _ [] (forall₂_543 m1 m2 m3)]
    simp only [List.nil_append, Option.getD_some]
    rw [fun3ToList_coe, roundtrip543]
    show tableToFun3 (function_to_table linearC [5, 4, 3]) m1 m2 m3 = _
    rw [tableToFun3_function_to_table]
    rfl
  refine ⟨?_, ?_, ?_⟩
  · rw [hwrap1, hg1]
  · rw [hwrap2, hg2]
  · refine ⟨g2C2.representation
        [((m1 : ℕ) : ℤ), ((m2 : ℕ) : ℤ), ((m3 : ℕ) : ℤ)],
      fC2.representation
        [((m1 : ℕ) : ℤ), ((m2 : ℕ) : ℤ), ((m3 : ℕ) : ℤ)],
      heval g2C2 (by rw [hg2]), heval fC2 rfl, ?_⟩
    rw [hval, sub_self]
    rw [map_zero]
    norm_num

end Abelian
